import Mathlib

/-!
Verification development for the extremecloud-iq-monitor availability core.

The definitions below are shallow embeddings of the TypeScript source:
* `computeAvailability` / `getAvailabilityReport` — the uptime/downtime loop of
  `getAvailabilityReport` in the availability service;
* `calculateExcludedTime` and friends — the planned-downtime service;
* `detectFlapping` and the severity map — the event-counter service;
* `fastPoll` and the polling scheduler — the report-export/polling service.

Timestamps are modelled as integers (milliseconds since epoch, the value of
`Date.getTime()`); durations accumulated in seconds are modelled as exact
rationals (the source divides millisecond differences by 1000 and only rounds
at the end).
-/

namespace Monitor

/-- Device status as stored in the availability event tables. -/
inductive Status where
  | up
  | down
deriving DecidableEq, Repr

/-- JavaScript `Math.round`: round half toward positive infinity. -/
def jsRound (q : ℚ) : ℤ := ⌊q + 1 / 2⌋

/-- A row of the `deviceAvailability` table as used by `getAvailabilityReport`:
`timestamp` in milliseconds since epoch (`Date.getTime()`). -/
structure StateChange where
  timestamp : ℤ
  status : Status
deriving DecidableEq, Repr

/-- The per-event durations of the `getAvailabilityReport` loop: event `i` is
attributed the seconds up to event `i+1`, the last event up to `now`. -/
def segDurations : List StateChange → ℤ → List (Status × ℚ)
  | [], _ => []
  | [e], nowMs => [(e.status, ((nowMs - e.timestamp : ℤ) : ℚ) / 1000)]
  | e :: e₂ :: rest, nowMs =>
      (e.status, ((e₂.timestamp - e.timestamp : ℤ) : ℚ) / 1000)
        :: segDurations (e₂ :: rest) nowMs

/-- The accumulation of the loop: add each duration to uptime when the event
status is `up`, to downtime when it is `down`. -/
def accumulate (segs : List (Status × ℚ)) : ℚ × ℚ :=
  segs.foldl
    (fun acc p =>
      match p.1 with
      | .up => (acc.1 + p.2, acc.2)
      | .down => (acc.1, acc.2 + p.2))
    (0, 0)

/-- The availability figures returned by `getAvailabilityReport` (the fields
the claims are about). `currentStatus = none` models `"unknown"`. -/
structure AvailabilityResult where
  uptimeSeconds : ℤ
  downtimeSeconds : ℤ
  currentStatus : Option Status
deriving DecidableEq, Repr

/-- Core of `getAvailabilityReport`: given the state changes inside the query
window (ascending), the most recent status from the unfiltered query, `now`
and the period length, produce the rounded uptime/downtime figures. -/
def computeAvailability (stateChanges : List StateChange)
    (currentStatus : Option Status) (nowMs periodMs : ℤ) : AvailabilityResult :=
  match stateChanges with
  | [] =>
      let totalSeconds : ℚ := (periodMs : ℚ) / 1000
      let u : ℚ := if currentStatus = some .up then totalSeconds else 0
      let d : ℚ := if currentStatus = some .down then totalSeconds else 0
      ⟨jsRound u, jsRound d, currentStatus⟩
  | e :: rest =>
      let acc := accumulate (segDurations (e :: rest) nowMs)
      ⟨jsRound acc.1, jsRound acc.2, currentStatus⟩

/-- The window filter of the state-change query:
`timestamp ∈ [startTime, now]`. -/
def eventsInWindow (history : List StateChange) (startMs nowMs : ℤ) :
    List StateChange :=
  history.filter (fun ev => decide (startMs ≤ ev.timestamp ∧ ev.timestamp ≤ nowMs))

/-- The `lastState` query: most recent event with no window filter.  The event
log is ascending by `occurredAt` (insertion order = temporal order), so the
most recent row is the last element. -/
def latestStatus (history : List StateChange) : Option Status :=
  history.getLast?.map (·.status)

/-- `getAvailabilityReport` over the full per-device history: filter the
window events, look up the latest status without the window filter, run the
accumulation loop. -/
def getAvailabilityReport (history : List StateChange) (nowMs periodMs : ℤ) :
    AvailabilityResult :=
  computeAvailability (eventsInWindow history (nowMs - periodMs) nowMs)
    (latestStatus history) nowMs periodMs

lemma accumulate_fst_add_snd (segs : List (Status × ℚ)) :
    (accumulate segs).1 + (accumulate segs).2 = (segs.map (·.2)).sum := by
  suffices h : ∀ a b : ℚ,
      (segs.foldl
        (fun acc p =>
          match p.1 with
          | Status.up => (acc.1 + p.2, acc.2)
          | Status.down => (acc.1, acc.2 + p.2)) (a, b)).1
      + (segs.foldl
        (fun acc p =>
          match p.1 with
          | Status.up => (acc.1 + p.2, acc.2)
          | Status.down => (acc.1, acc.2 + p.2)) (a, b)).2
      = a + b + (segs.map (·.2)).sum by
    simpa [accumulate] using h 0 0
  induction segs with
  | nil => intro a b; simp
  | cons p rest ih =>
      intro a b
      cases hp : p.1 <;> simp [hp, ih] <;> ring

lemma segDurations_sum (e : StateChange) (rest : List StateChange) (nowMs : ℤ) :
    ((segDurations (e :: rest) nowMs).map (·.2)).sum
      = ((nowMs - e.timestamp : ℤ) : ℚ) / 1000 := by
  induction rest generalizing e with
  | nil => simp [segDurations]
  | cons e₂ rest ih =>
      have h := ih e₂
      simp only [segDurations, List.map_cons, List.sum_cons, h]
      push_cast
      ring

/-- Each per-event duration is an integer number of seconds when every
timestamp (and `now`) is a whole second. -/
lemma segDurations_int (evs : List StateChange) (nowMs : ℤ)
    (hts : ∀ x ∈ evs, (1000 : ℤ) ∣ x.timestamp) (hnow : (1000 : ℤ) ∣ nowMs) :
    ∀ p ∈ segDurations evs nowMs, ∃ n : ℤ, p.2 = (n : ℚ) := by
  induction evs with
  | nil => simp [segDurations]
  | cons e rest ih =>
      cases rest with
      | nil =>
          intro p hp
          simp only [segDurations, List.mem_singleton] at hp
          subst hp
          obtain ⟨k, hk⟩ : (1000 : ℤ) ∣ nowMs - e.timestamp :=
            dvd_sub hnow (hts e (by simp))
          refine ⟨k, ?_⟩
          rw [hk]
          push_cast
          field_simp
      | cons e₂ rest₂ =>
          intro p hp
          simp only [segDurations, List.mem_cons] at hp
          rcases hp with hp | hp
          · subst hp
            obtain ⟨k, hk⟩ : (1000 : ℤ) ∣ e₂.timestamp - e.timestamp :=
              dvd_sub (hts e₂ (by simp)) (hts e (by simp))
            refine ⟨k, ?_⟩
            rw [hk]
            push_cast
            field_simp
          · exact ih (fun x hx => hts x (List.mem_cons_of_mem e hx)) p hp

lemma accumulate_int (segs : List (Status × ℚ))
    (h : ∀ p ∈ segs, ∃ n : ℤ, p.2 = (n : ℚ)) :
    (∃ n : ℤ, (accumulate segs).1 = (n : ℚ)) ∧
    (∃ n : ℤ, (accumulate segs).2 = (n : ℚ)) := by
  suffices hgen : ∀ a b : ℤ,
      (∃ n : ℤ, (segs.foldl
        (fun acc p =>
          match p.1 with
          | Status.up => (acc.1 + p.2, acc.2)
          | Status.down => (acc.1, acc.2 + p.2)) ((a : ℚ), (b : ℚ))).1 = (n : ℚ)) ∧
      (∃ n : ℤ, (segs.foldl
        (fun acc p =>
          match p.1 with
          | Status.up => (acc.1 + p.2, acc.2)
          | Status.down => (acc.1, acc.2 + p.2)) ((a : ℚ), (b : ℚ))).2 = (n : ℚ)) by
    have h0 := hgen 0 0
    simpa [accumulate] using h0
  induction segs with
  | nil => intro a b; exact ⟨⟨a, rfl⟩, ⟨b, rfl⟩⟩
  | cons p rest ih =>
      intro a b
      obtain ⟨m, hm⟩ := h p (by simp)
      have hrest : ∀ q ∈ rest, ∃ n : ℤ, q.2 = (n : ℚ) :=
        fun q hq => h q (List.mem_cons_of_mem p hq)
      have hcast : ∀ x y : ℤ, (x : ℚ) + (y : ℚ) = ((x + y : ℤ) : ℚ) := by
        intro x y; push_cast; ring
      cases hp : p.1
      · rw [List.foldl_cons]
        simp only [hp, hm, hcast a m]
        exact ih hrest (a + m) b
      · rw [List.foldl_cons]
        simp only [hp, hm, hcast b m]
        exact ih hrest a (b + m)

lemma jsRound_intCast (n : ℤ) : jsRound (n : ℚ) = n := by
  unfold jsRound
  rw [Int.floor_int_add]
  norm_num

lemma jsRound_zero : jsRound 0 = 0 := by
  have h := jsRound_intCast 0
  simpa using h

/-- C1: for every query window holding at least one event (ascending by
`occurredAt`, timestamps and window bounds in whole seconds), the loop of
`getAvailabilityReport` attributes to each event the duration up to the next
event (up to `windowEnd` for the last), so `uptimeSeconds + downtimeSeconds`
equals exactly `(windowEnd - firstEvent.occurredAt)` in whole seconds: the
full window length when the first event coincides with `windowStart`, and
short of it by exactly `(firstEvent.occurredAt - windowStart)` seconds
otherwise — the leading gap is attributed to neither side, and rounding to
whole seconds happens only at the end. -/
theorem availability_total_attribution
    (e : StateChange) (rest : List StateChange) (cs : Option Status)
    (nowMs periodMs : ℤ)
    (hsort : List.Chain' (fun a b => a.timestamp ≤ b.timestamp) (e :: rest))
    (hwin : ∀ x ∈ e :: rest, nowMs - periodMs ≤ x.timestamp ∧ x.timestamp ≤ nowMs)
    (hts : ∀ x ∈ e :: rest, (1000 : ℤ) ∣ x.timestamp)
    (hnow : (1000 : ℤ) ∣ nowMs) (hper : (1000 : ℤ) ∣ periodMs) :
    (computeAvailability (e :: rest) cs nowMs periodMs).uptimeSeconds
      + (computeAvailability (e :: rest) cs nowMs periodMs).downtimeSeconds
      = (nowMs - e.timestamp) / 1000
    ∧ (e.timestamp = nowMs - periodMs →
        (computeAvailability (e :: rest) cs nowMs periodMs).uptimeSeconds
          + (computeAvailability (e :: rest) cs nowMs periodMs).downtimeSeconds
          = periodMs / 1000)
    ∧ periodMs / 1000
        - ((computeAvailability (e :: rest) cs nowMs periodMs).uptimeSeconds
          + (computeAvailability (e :: rest) cs nowMs periodMs).downtimeSeconds)
      = (e.timestamp - (nowMs - periodMs)) / 1000 := by
  obtain ⟨⟨nu, hnu⟩, ⟨nd, hnd⟩⟩ := accumulate_int (segDurations (e :: rest) nowMs)
    (segDurations_int (e :: rest) nowMs hts hnow)
  obtain ⟨t, ht⟩ := hts e (List.mem_cons_self e rest)
  obtain ⟨n, hn⟩ := hnow
  obtain ⟨p, hp⟩ := hper
  have hsum : (accumulate (segDurations (e :: rest) nowMs)).1
      + (accumulate (segDurations (e :: rest) nowMs)).2
      = ((nowMs - e.timestamp : ℤ) : ℚ) / 1000 := by
    rw [accumulate_fst_add_snd, segDurations_sum]
  have hda : nowMs - e.timestamp = 1000 * (n - t) := by omega
  have hqsum : (nu : ℚ) + (nd : ℚ) = ((n - t : ℤ) : ℚ) := by
    rw [← hnu, ← hnd, hsum, hda]
    push_cast
    ring
  have hnusum : nu + nd = n - t := by exact_mod_cast hqsum
  have hcompute : computeAvailability (e :: rest) cs nowMs periodMs
      = ⟨jsRound (accumulate (segDurations (e :: rest) nowMs)).1,
         jsRound (accumulate (segDurations (e :: rest) nowMs)).2, cs⟩ := rfl
  have hup : (computeAvailability (e :: rest) cs nowMs periodMs).uptimeSeconds = nu := by
    rw [hcompute, hnu]
    exact jsRound_intCast nu
  have hdn : (computeAvailability (e :: rest) cs nowMs periodMs).downtimeSeconds = nd := by
    rw [hcompute, hnd]
    exact jsRound_intCast nd
  have h1000 : (1000 : ℤ) ≠ 0 := by norm_num
  have h1 : (nowMs - e.timestamp) / 1000 = n - t := by
    rw [hda]
    exact Int.mul_ediv_cancel_left _ h1000
  have h2 : periodMs / 1000 = p := by
    rw [hp]
    exact Int.mul_ediv_cancel_left _ h1000
  have h3 : (e.timestamp - (nowMs - periodMs)) / 1000 = t - (n - p) := by
    have heq : e.timestamp - (nowMs - periodMs) = 1000 * (t - (n - p)) := by omega
    rw [heq]
    exact Int.mul_ediv_cancel_left _ h1000
  refine ⟨?_, ?_, ?_⟩
  · rw [hup, hdn, h1]
    exact hnusum
  · intro hE
    rw [hup, hdn, h2]
    omega
  · rw [hup, hdn, h2, h3]
    omega

/-- Witness for C1 at a concrete window: `now = 300000` ms, period 300 s,
events at 0 s (`up`) and 100 s (`down`); attributed total is 300 s. -/
theorem availability_total_attribution_witness :
    (computeAvailability [⟨0, .up⟩, ⟨100000, .down⟩] (some .down) 300000 300000).uptimeSeconds
      + (computeAvailability [⟨0, .up⟩, ⟨100000, .down⟩] (some .down) 300000 300000).downtimeSeconds
      = 300 := by
  have h := availability_total_attribution ⟨0, .up⟩ [⟨100000, .down⟩] (some .down)
    300000 300000 (by constructor <;> simp) (by intro x hx; fin_cases hx <;> simp)
    (by intro x hx; fin_cases hx <;> decide) (by decide) (by decide)
  simpa using h.1

/-- C6: for a window containing no events, the availability computation
attributes the entire window to the latest known status from the unfiltered
query (full length to uptime when `up`, full length to downtime when `down`),
and with no prior event at all it reports `currentStatus` unknown and both
figures `0`. -/
theorem availability_empty_window (history : List StateChange)
    (nowMs periodMs : ℤ) (hper : (1000 : ℤ) ∣ periodMs)
    (hempty : eventsInWindow history (nowMs - periodMs) nowMs = []) :
    (getAvailabilityReport history nowMs periodMs).currentStatus = latestStatus history
    ∧ (latestStatus history = some .up →
        (getAvailabilityReport history nowMs periodMs).uptimeSeconds = periodMs / 1000
        ∧ (getAvailabilityReport history nowMs periodMs).downtimeSeconds = 0)
    ∧ (latestStatus history = some .down →
        (getAvailabilityReport history nowMs periodMs).downtimeSeconds = periodMs / 1000
        ∧ (getAvailabilityReport history nowMs periodMs).uptimeSeconds = 0)
    ∧ (history = [] →
        (getAvailabilityReport history nowMs periodMs).currentStatus = none
        ∧ (getAvailabilityReport history nowMs periodMs).uptimeSeconds = 0
        ∧ (getAvailabilityReport history nowMs periodMs).downtimeSeconds = 0) := by
  obtain ⟨p, hp⟩ := hper
  have hper1000 : periodMs / 1000 = p := by
    rw [hp]
    exact Int.mul_ediv_cancel_left _ (by norm_num)
  have htot : ((periodMs : ℚ) / 1000) = (p : ℚ) := by
    rw [hp]
    push_cast
    ring
  have hrep : getAvailabilityReport history nowMs periodMs
      = computeAvailability [] (latestStatus history) nowMs periodMs := by
    unfold getAvailabilityReport
    rw [hempty]
  refine ⟨?_, ?_, ?_, ?_⟩
  · rw [hrep]
    rfl
  · intro hls
    rw [hrep]
    simp only [computeAvailability, hls, htot]
    simp [jsRound_intCast, jsRound_zero, hper1000]
  · intro hls
    rw [hrep]
    simp only [computeAvailability, hls, htot]
    simp [jsRound_intCast, jsRound_zero, hper1000]
  · intro hh
    subst hh
    rw [hrep]
    simp only [latestStatus, List.getLast?, Option.map_none]
    simp [computeAvailability, jsRound_zero]

/-- Witness for C6: an out-of-window `up` event at 1 s, window
`[600000, 900000]` ms: the whole 300 s window is attributed to uptime. -/
theorem availability_empty_window_witness :
    (getAvailabilityReport [⟨1000, .up⟩] 900000 300000).uptimeSeconds = 300
    ∧ (getAvailabilityReport [⟨1000, .up⟩] 900000 300000).downtimeSeconds = 0 := by
  have h := availability_empty_window [⟨1000, .up⟩] 900000 300000 (by decide)
    (by decide)
  have h2 := h.2.1 (by decide)
  simpa using h2

/-- SLA figures of `generateReportData` (achieved percentage, compliance and
breach seconds, the last already clamped by the `Math.max(0, ·)` at the
return site). -/
structure SlaResult where
  achieved : ℚ
  compliant : Bool
  breachDuration : ℚ
deriving DecidableEq, Repr

/-- SLA block of `generateReportData`: `availableSeconds = totalSeconds -
excludedSeconds`; achieved uptime is `(available - down) / available * 100`
when available is positive, otherwise `0`; compliance compares against the
target; the breach figure is `0` when compliant, else the shortfall, clamped
at `0` on output. -/
def evaluateSla (totalSeconds excludedSeconds downSeconds target : ℚ) : SlaResult :=
  let availableSeconds := totalSeconds - excludedSeconds
  let achievedUptime : ℚ :=
    if 0 < availableSeconds then (availableSeconds - downSeconds) / availableSeconds * 100
    else 0
  let breachDuration : ℚ :=
    if target ≤ achievedUptime then 0
    else target / 100 * availableSeconds - achievedUptime / 100 * availableSeconds
  ⟨achievedUptime, decide (target ≤ achievedUptime), max 0 breachDuration⟩

/-- C3: the SLA evaluation returns `achievedUptime = 100·(available - down) /
available` when `available > 0` and `0` otherwise, `compliant = (achieved ≥
target)`, and `breach = 0` when compliant else `max 0 (target/100·available -
achieved/100·available)`; at target 99.5 with 86400 available seconds, 360
down seconds give achieved `1195/12 ≈ 99.58`, compliant, breach 0, while 864
down seconds give achieved exactly 99.0, non-compliant, breach 432 > 0. -/
theorem sla_evaluation (total excluded down target : ℚ) :
    (evaluateSla total excluded down target).achieved
      = (if 0 < total - excluded
          then 100 * ((total - excluded) - down) / (total - excluded) else 0)
    ∧ (evaluateSla total excluded down target).compliant
      = decide (target ≤ (evaluateSla total excluded down target).achieved)
    ∧ (evaluateSla total excluded down target).breachDuration
      = (if target ≤ (evaluateSla total excluded down target).achieved then 0
          else max 0 (target / 100 * (total - excluded)
            - (evaluateSla total excluded down target).achieved / 100 * (total - excluded)))
    ∧ evaluateSla 86400 0 360 (199 / 2) = ⟨1195 / 12, true, 0⟩
    ∧ (9958 : ℚ) / 100 < (evaluateSla 86400 0 360 (199 / 2)).achieved
    ∧ (evaluateSla 86400 0 360 (199 / 2)).achieved < (9959 : ℚ) / 100
    ∧ evaluateSla 86400 0 864 (199 / 2) = ⟨99, false, 432⟩
    ∧ (0 : ℚ) < (evaluateSla 86400 0 864 (199 / 2)).breachDuration := by
  refine ⟨?_, ?_, ?_, by norm_num [evaluateSla], by norm_num [evaluateSla],
    by norm_num [evaluateSla], by norm_num [evaluateSla], by norm_num [evaluateSla]⟩
  · by_cases h : 0 < total - excluded
    · simp only [evaluateSla, if_pos h]
      ring
    · simp only [evaluateSla, if_neg h]
  · rfl
  · by_cases h : target ≤ (evaluateSla total excluded down target).achieved
    · have h' : (evaluateSla total excluded down target).breachDuration = max 0 0 := by
        simp only [evaluateSla] at h ⊢
        rw [if_pos h]
      rw [if_pos h, h']
      simp
    · have h' : (evaluateSla total excluded down target).breachDuration
          = max 0 (target / 100 * (total - excluded)
            - (evaluateSla total excluded down target).achieved / 100 * (total - excluded)) := by
        simp only [evaluateSla] at h ⊢
        rw [if_neg h]
      rw [if_neg h, h']

/-- Recurrence tag of a planned downtime window. -/
inductive RecurringType where
  | none
  | daily
  | weekly
  | monthly
deriving DecidableEq, Repr

/-- A row of the `plannedDowntime` table; times in milliseconds since epoch. -/
structure PlannedDowntimeWindow where
  userId : ℕ
  deviceId : ℕ
  title : String
  startTime : ℤ
  endTime : ℤ
  recurring : RecurringType
deriving DecidableEq, Repr

/-- Helper `rangesOverlap`: strict interval overlap test. -/
def rangesOverlap (start1 end1 start2 end2 : ℤ) : Bool :=
  decide (start1 < end2 ∧ start2 < end1)

/-- `getOverlappingPlannedDowntime`: the device windows whose stored absolute
interval strictly overlaps the query range. -/
def getOverlappingPlannedDowntime (windows : List PlannedDowntimeWindow)
    (startTime endTime : ℤ) : List PlannedDowntimeWindow :=
  windows.filter (fun w => rangesOverlap startTime endTime w.startTime w.endTime)

/-- `calculateExcludedTime`: sum the clamped intersections of each overlapping
window's absolute interval with the query range, then floor to seconds. -/
def calculateExcludedTime (windows : List PlannedDowntimeWindow)
    (startTime endTime : ℤ) : ℤ :=
  let overlapping := getOverlappingPlannedDowntime windows startTime endTime
  let totalExcludedMs := overlapping.foldl
    (fun acc w => acc + max 0 (min endTime w.endTime - max startTime w.startTime)) 0
  totalExcludedMs / 1000

/-- Length of a day in milliseconds. -/
def dayMs : ℤ := 86400000

/-- Modelled from the spec: no function under `src/` computes a recurring
window's excluded seconds per occurrence; §4.3 asks to intersect, for each day
of the query window, the day's daily occurrence (the template's time of day)
with the query window and to sum the per-occurrence overlaps.  This follows
those words for the `daily` case in a fixed (UTC-like) zone. -/
def specDailyExcludedSeconds (w : PlannedDowntimeWindow)
    (startTime endTime : ℤ) : ℤ :=
  let firstDay := startTime / dayMs
  let lastDay := (endTime - 1) / dayMs
  let days := (List.range (lastDay - firstDay + 1).toNat).map
    (fun k => firstDay + (k : ℤ))
  let totalMs := days.foldl
    (fun acc d =>
      let occStart := d * dayMs + w.startTime % dayMs
      let occEnd := d * dayMs + w.endTime % dayMs
      acc + max 0 (min endTime occEnd - max startTime occStart)) 0
  totalMs / 1000

/-- Counterexample to C2: a daily window templated on day 0 (02:00–03:00)
queried over days 10–11.  Per-occurrence evaluation yields 7200 excluded
seconds, but `calculateExcludedTime` intersects the stored absolute interval
once, finds no overlap, and returns 0. -/
theorem recurring_excluded_counterexample :
    calculateExcludedTime
      [⟨1, 1, "maintenance", 7200000, 10800000, RecurringType.daily⟩]
      864000000 1036800000 = 0
    ∧ specDailyExcludedSeconds
      ⟨1, 1, "maintenance", 7200000, 10800000, RecurringType.daily⟩
      864000000 1036800000 = 7200
    ∧ (0 : ℤ) ≠ 7200 := by
  refine ⟨by decide, by decide, by decide⟩

/-- C2 amended: `calculateExcludedTime` treats every window — recurring or
not — as its single stored absolute interval; the `recurring` field has no
effect on the excluded seconds. -/
theorem excluded_time_ignores_recurring (windows : List PlannedDowntimeWindow)
    (startTime endTime : ℤ) (r : RecurringType) :
    calculateExcludedTime
        (windows.map (fun w => { w with recurring := r })) startTime endTime
      = calculateExcludedTime windows startTime endTime := by
  simp only [calculateExcludedTime, getOverlappingPlannedDowntime,
    List.filter_map, List.foldl_map]
  rfl

/-- Error taxonomy of window creation: the `try` block throws on a malformed
range. -/
inductive CreateError where
  | invalidRange
deriving DecidableEq, Repr

/-- Body of the `try` block of `createPlannedDowntime`: throw when
`startTime ≥ endTime`, otherwise insert the window into the store. -/
def createPlannedDowntimeBody (store : List PlannedDowntimeWindow)
    (w : PlannedDowntimeWindow) :
    Except CreateError (List PlannedDowntimeWindow) :=
  if w.endTime ≤ w.startTime then .error .invalidRange
  else .ok (store ++ [w])

/-- `createPlannedDowntime`: run the body; the surrounding catch swallows the
thrown error and returns null, leaving the store untouched. -/
def createPlannedDowntime (store : List PlannedDowntimeWindow)
    (w : PlannedDowntimeWindow) :
    Option (List PlannedDowntimeWindow) × List PlannedDowntimeWindow :=
  match createPlannedDowntimeBody store w with
  | .error _ => (none, store)
  | .ok newStore => (some newStore, newStore)

/-- C8: with `startTime ≥ endTime` the creation fails with `InvalidRange` and
the store is unchanged (nothing persisted); with `startTime < endTime` the
window is inserted. -/
theorem create_planned_downtime_invalid_range
    (store : List PlannedDowntimeWindow) (w : PlannedDowntimeWindow) :
    (w.endTime ≤ w.startTime →
      createPlannedDowntimeBody store w = .error .invalidRange
      ∧ createPlannedDowntime store w = (none, store))
    ∧ (w.startTime < w.endTime →
      createPlannedDowntime store w = (some (store ++ [w]), store ++ [w])) := by
  constructor
  · intro h
    have hbody : createPlannedDowntimeBody store w = .error .invalidRange := by
      simp [createPlannedDowntimeBody, h]
    exact ⟨hbody, by simp [createPlannedDowntime, hbody]⟩
  · intro h
    have hbody : createPlannedDowntimeBody store w = .ok (store ++ [w]) := by
      simp [createPlannedDowntimeBody, not_le.mpr h]
    simp [createPlannedDowntime, hbody]

/-- Witness for C8: a degenerate window with `startTime = endTime = 5000` is
rejected and not persisted; a proper window is inserted. -/
theorem create_planned_downtime_invalid_range_witness :
    createPlannedDowntime [] ⟨1, 1, "w", 5000, 5000, RecurringType.none⟩
      = (none, [])
    ∧ createPlannedDowntime [] ⟨1, 1, "w", 5000, 6000, RecurringType.none⟩
      = (some [⟨1, 1, "w", 5000, 6000, RecurringType.none⟩],
         [⟨1, 1, "w", 5000, 6000, RecurringType.none⟩]) := by
  constructor
  · exact ((create_planned_downtime_invalid_range []
      ⟨1, 1, "w", 5000, 5000, RecurringType.none⟩).1 (by decide)).2
  · exact (create_planned_downtime_invalid_range []
      ⟨1, 1, "w", 5000, 6000, RecurringType.none⟩).2 (by decide)

/-- Severity of a flapping incident. -/
inductive Severity where
  | low
  | medium
  | high
deriving DecidableEq, Repr

/-- `FLAPPING_THRESHOLD`: number of transitions considered flapping. -/
def FLAPPING_THRESHOLD : ℕ := 5

/-- `FLAPPING_WINDOW`: five minutes in milliseconds. -/
def FLAPPING_WINDOW : ℤ := 5 * 60 * 1000

/-- `FLAPPING_SEVERITY_MAP`: the exact-match severity table. -/
def FLAPPING_SEVERITY_MAP (n : ℕ) : Option Severity :=
  if n = 5 then some .low
  else if n = 10 then some .medium
  else if n = 15 then some .high
  else Option.none

/-- Severity lookup of `detectFlapping`:
`FLAPPING_SEVERITY_MAP[transitionCount] || "high"`. -/
def severityFor (n : ℕ) : Severity :=
  (FLAPPING_SEVERITY_MAP n).getD .high

/-- A row of `deviceAvailabilityEvents` as read by `detectFlapping`. -/
structure FlapEvent where
  userId : ℕ
  deviceId : ℕ
  startTime : ℤ
  status : Status
deriving DecidableEq, Repr

/-- A row of the `flappingEvents` table. -/
structure FlappingIncident where
  userId : ℕ
  deviceId : ℕ
  transitionCount : ℕ
  timeWindowSeconds : ℤ
  startTime : ℤ
  endTime : ℤ
  severity : Severity
  acknowledged : Bool
deriving DecidableEq, Repr

/-- Transition walk of `detectFlapping` after the baseline is set: each event
whose status differs from the previous one counts one transition. -/
def countTransitionsFrom (last : Status) : List Status → ℕ
  | [] => 0
  | s :: rest => (if last ≠ s then 1 else 0) + countTransitionsFrom s rest

/-- Transition count: the first event establishes the baseline and
contributes no transition. -/
def countTransitions : List Status → ℕ
  | [] => 0
  | s :: rest => countTransitionsFrom s rest

/-- The `recentEvents` query of `detectFlapping`: the device's events with
`startTime ∈ [now - FLAPPING_WINDOW, now]`. -/
def recentEventsOf (events : List FlapEvent) (userId deviceId : ℕ)
    (nowMs : ℤ) : List FlapEvent :=
  events.filter
    (fun e => decide (e.userId = userId ∧ e.deviceId = deviceId
      ∧ nowMs - FLAPPING_WINDOW ≤ e.startTime ∧ e.startTime ≤ nowMs))

/-- The `existingFlapping` query of `detectFlapping`: unacknowledged
incidents of the device with `startTime ≥ windowStart`. -/
def existingFlappingOf (incidents : List FlappingIncident)
    (userId deviceId : ℕ) (nowMs : ℤ) : List FlappingIncident :=
  incidents.filter
    (fun f => decide (f.userId = userId ∧ f.deviceId = deviceId
      ∧ f.acknowledged = false ∧ nowMs - FLAPPING_WINDOW ≤ f.startTime))

/-- The incident row `detectFlapping` inserts. -/
def newIncident (userId deviceId : ℕ) (nowMs : ℤ) (transitionCount : ℕ) :
    FlappingIncident :=
  ⟨userId, deviceId, transitionCount, FLAPPING_WINDOW / 1000,
    nowMs - FLAPPING_WINDOW, nowMs, severityFor transitionCount, false⟩

/-- `detectFlapping`: filter the device's events of the last
`FLAPPING_WINDOW`, count transitions; at or above the threshold, look up the
severity, suppress when an unacknowledged incident for the device with
`startTime ≥ windowStart` already exists, otherwise create the incident.
Returns the created incident (if any) together with the incident store after
the call. -/
def detectFlapping (events : List FlapEvent) (incidents : List FlappingIncident)
    (userId deviceId : ℕ) (nowMs : ℤ) :
    Option FlappingIncident × List FlappingIncident :=
  let recentEvents := recentEventsOf events userId deviceId nowMs
  if recentEvents.length < FLAPPING_THRESHOLD then (Option.none, incidents)
  else
    let transitionCount := countTransitions (recentEvents.map (·.status))
    if FLAPPING_THRESHOLD ≤ transitionCount then
      if (existingFlappingOf incidents userId deviceId nowMs).isEmpty then
        (some (newIncident userId deviceId nowMs transitionCount),
          incidents ++ [newIncident userId deviceId nowMs transitionCount])
      else (Option.none, incidents)
    else (Option.none, incidents)

/-- C4: six alternating up/down events in the detection window yield
transition count 5 and a recorded incident of severity low; seven alternating
events yield count 6 and severity high, because the severity lookup is an
exact match on {5 : low, 10 : medium, 15 : high} defaulting to high for every
other count. -/
theorem flapping_severity_exact_match (n : ℕ)
    (h5 : n ≠ 5) (h10 : n ≠ 10) (h15 : n ≠ 15) :
    (detectFlapping
        [⟨1, 1, 0, .up⟩, ⟨1, 1, 50000, .down⟩, ⟨1, 1, 100000, .up⟩,
         ⟨1, 1, 150000, .down⟩, ⟨1, 1, 200000, .up⟩, ⟨1, 1, 250000, .down⟩]
        [] 1 1 300000).1
      = some ⟨1, 1, 5, 300, 0, 300000, .low, false⟩
    ∧ (detectFlapping
        [⟨1, 1, 0, .up⟩, ⟨1, 1, 40000, .down⟩, ⟨1, 1, 80000, .up⟩,
         ⟨1, 1, 120000, .down⟩, ⟨1, 1, 160000, .up⟩, ⟨1, 1, 200000, .down⟩,
         ⟨1, 1, 240000, .up⟩]
        [] 1 1 300000).1
      = some ⟨1, 1, 6, 300, 0, 300000, .high, false⟩
    ∧ severityFor n = .high := by
  refine ⟨by decide, by decide, ?_⟩
  simp [severityFor, FLAPPING_SEVERITY_MAP, h5, h10, h15]

/-- Witness for C4: transition count 12 is not an exact table match and falls
back to high. -/
theorem flapping_severity_exact_match_witness :
    severityFor 12 = .high :=
  (flapping_severity_exact_match 12 (by decide) (by decide) (by decide)).2.2

lemma detectFlapping_suppressed (events : List FlapEvent)
    (incidents : List FlappingIncident) (u d : ℕ) (nowMs : ℤ)
    (f : FlappingIncident) (hf : f ∈ incidents) (hu : f.userId = u)
    (hd : f.deviceId = d) (hack : f.acknowledged = false)
    (hst : nowMs - FLAPPING_WINDOW ≤ f.startTime) :
    detectFlapping events incidents u d nowMs = (Option.none, incidents) := by
  have hmem : f ∈ existingFlappingOf incidents u d nowMs := by
    rw [existingFlappingOf, List.mem_filter]
    exact ⟨hf, by simp [hu, hd, hack, hst]⟩
  have hne : (existingFlappingOf incidents u d nowMs).isEmpty = false := by
    cases hfil : existingFlappingOf incidents u d nowMs with
    | nil => rw [hfil] at hmem; simp at hmem
    | cons a l => simp [List.isEmpty]
  simp only [detectFlapping]
  split_ifs with h1 h2 h3
  · rfl
  · rw [hne] at h3
    exact absurd h3 (by simp)
  · rfl
  · rfl

lemma detectFlapping_created (events : List FlapEvent)
    (incidents : List FlappingIncident) (u d : ℕ) (nowMs : ℤ)
    (inc : FlappingIncident)
    (h : (detectFlapping events incidents u d nowMs).1 = some inc) :
    (detectFlapping events incidents u d nowMs).2 = incidents ++ [inc]
    ∧ inc.userId = u ∧ inc.deviceId = d ∧ inc.acknowledged = false
    ∧ inc.startTime = nowMs - FLAPPING_WINDOW := by
  simp only [detectFlapping] at h ⊢
  split_ifs at h ⊢ with h1 h2 h3
  simp only [Option.some.injEq] at h
  subst h
  exact ⟨rfl, rfl, rfl, rfl, rfl⟩

/-- C5: once the detector has created an incident, a second invocation for
the same device within the same detection window finds the unacknowledged
incident with `startTime ≥ windowStart` and suppresses creation: across the
two sequential invocations exactly one flapping incident is produced. -/
theorem flapping_dedup (events events2 : List FlapEvent)
    (incidents : List FlappingIncident) (u d : ℕ) (nowMs : ℤ)
    (hcreated : (detectFlapping events incidents u d nowMs).1.isSome = true) :
    (detectFlapping events2 (detectFlapping events incidents u d nowMs).2
        u d nowMs).1 = Option.none
    ∧ (detectFlapping events2 (detectFlapping events incidents u d nowMs).2
        u d nowMs).2 = (detectFlapping events incidents u d nowMs).2
    ∧ (detectFlapping events incidents u d nowMs).2.length
        = incidents.length + 1 := by
  obtain ⟨inc, hinc⟩ := Option.isSome_iff_exists.mp hcreated
  obtain ⟨hstore, hu, hd, hack, hst⟩ :=
    detectFlapping_created events incidents u d nowMs inc hinc
  have hsupp := detectFlapping_suppressed events2 (incidents ++ [inc]) u d nowMs
    inc (by simp) hu hd hack (le_of_eq hst.symm)
  refine ⟨?_, ?_, ?_⟩
  · rw [hstore, hsupp]
  · rw [hstore, hsupp]
  · rw [hstore]
    simp

/-- Witness for C5: running the detector twice on the six-event scenario with
an empty incident store creates exactly one incident. -/
theorem flapping_dedup_witness :
    (detectFlapping
        [⟨1, 1, 0, .up⟩, ⟨1, 1, 50000, .down⟩, ⟨1, 1, 100000, .up⟩,
         ⟨1, 1, 150000, .down⟩, ⟨1, 1, 200000, .up⟩, ⟨1, 1, 250000, .down⟩]
        ((detectFlapping
          [⟨1, 1, 0, .up⟩, ⟨1, 1, 50000, .down⟩, ⟨1, 1, 100000, .up⟩,
           ⟨1, 1, 150000, .down⟩, ⟨1, 1, 200000, .up⟩, ⟨1, 1, 250000, .down⟩]
          [] 1 1 300000).2) 1 1 300000).1 = Option.none
    ∧ (detectFlapping
        [⟨1, 1, 0, .up⟩, ⟨1, 1, 50000, .down⟩, ⟨1, 1, 100000, .up⟩,
         ⟨1, 1, 150000, .down⟩, ⟨1, 1, 200000, .up⟩, ⟨1, 1, 250000, .down⟩]
        [] 1 1 300000).2.length = 1 := by
  have h := flapping_dedup
    [⟨1, 1, 0, .up⟩, ⟨1, 1, 50000, .down⟩, ⟨1, 1, 100000, .up⟩,
     ⟨1, 1, 150000, .down⟩, ⟨1, 1, 200000, .up⟩, ⟨1, 1, 250000, .down⟩]
    [⟨1, 1, 0, .up⟩, ⟨1, 1, 50000, .down⟩, ⟨1, 1, 100000, .up⟩,
     ⟨1, 1, 150000, .down⟩, ⟨1, 1, 200000, .up⟩, ⟨1, 1, 250000, .down⟩]
    [] 1 1 300000 (by decide)
  exact ⟨h.1, by simpa using h.2.2⟩

/-- Result status of `fastPoll`. -/
inductive PollStatus where
  | up
  | down
  | unknown
deriving DecidableEq, Repr

/-- Map a device status to a fast-poll result status. -/
def PollStatus.ofStatus : Status → PollStatus
  | .up => .up
  | .down => .down

/-- The stored API token as far as `fastPoll` consults it. -/
structure ApiToken where
  expiresAt : ℤ
deriving DecidableEq, Repr

/-- Observable outcome of `fastPoll`: the returned status, the number of
single-device query attempts performed, and the total backoff wait in
milliseconds. -/
structure FastPollResult where
  status : PollStatus
  attemptsMade : ℕ
  totalWaitMs : ℤ
deriving DecidableEq, Repr

/-- Retry loop of `fastPoll`.  `attemptResult k` is the outcome of the k-th
single-device query (`none` models an error response or a thrown error);
after a failed attempt below `maxRetries` the loop waits
`retryDelayMs * 2 ^ (attempt - 1)`. -/
def fastPollLoop (attemptResult : ℕ → Option Status) (maxRetries : ℕ)
    (retryDelayMs : ℤ) : ℕ → ℤ → ℕ → FastPollResult
  | attempt, waited, 0 => ⟨.unknown, attempt - 1, waited⟩
  | attempt, waited, fuel + 1 =>
      match attemptResult attempt with
      | some s => ⟨PollStatus.ofStatus s, attempt, waited⟩
      | Option.none =>
          let waited' := if attempt < maxRetries
            then waited + retryDelayMs * 2 ^ (attempt - 1) else waited
          fastPollLoop attemptResult maxRetries retryDelayMs
            (attempt + 1) waited' fuel

/-- `fastPoll`: return unknown immediately without a stored token or with an
expired one; otherwise run up to `maxRetries` attempts with exponential
backoff, returning the first successful status or unknown. -/
def fastPoll (token : Option ApiToken) (nowMs : ℤ)
    (attemptResult : ℕ → Option Status) (maxRetries : ℕ)
    (retryDelayMs : ℤ) : FastPollResult :=
  match token with
  | Option.none => ⟨.unknown, 0, 0⟩
  | some t =>
      if t.expiresAt < nowMs then ⟨.unknown, 0, 0⟩
      else fastPollLoop attemptResult maxRetries retryDelayMs 1 0 maxRetries

lemma fastPollLoop_attempts_le (res : ℕ → Option Status) (m : ℕ) (delay : ℤ) :
    ∀ (fuel a : ℕ) (w : ℤ),
      (fastPollLoop res m delay a w fuel).attemptsMade ≤ a + fuel - 1 := by
  intro fuel
  induction fuel with
  | zero => intro a w; simp [fastPollLoop]
  | succ fuel ih =>
      intro a w
      rw [fastPollLoop]
      cases res a with
      | some s => simp
      | none =>
          refine le_trans (ih (a + 1) _) ?_
          omega

lemma fastPollLoop_all_fail (res : ℕ → Option Status) (m : ℕ) (delay : ℤ) :
    ∀ (fuel a : ℕ) (w : ℤ), 1 ≤ a → a + fuel = m + 1 →
      (∀ j, a ≤ j → j ≤ m → res j = Option.none) →
      fastPollLoop res m delay a w fuel
        = ⟨.unknown, m,
            w + (if a ≤ m then delay * (2 ^ (m - 1) - 2 ^ (a - 1)) else 0)⟩ := by
  intro fuel
  induction fuel with
  | zero =>
      intro a w ha hfuel hfail
      have ham : ¬ a ≤ m := by omega
      rw [fastPollLoop, if_neg ham]
      have : a - 1 = m := by omega
      simp [this]
  | succ fuel ih =>
      intro a w ha hfuel hfail
      have ham : a ≤ m := by omega
      have hresa : res a = Option.none := hfail a le_rfl ham
      rw [fastPollLoop, hresa]
      by_cases hlt : a < m
      · rw [if_pos hlt]
        rw [ih (a + 1) _ (by omega) (by omega)
          (fun j hj1 hj2 => hfail j (by omega) hj2)]
        rw [if_pos (by omega : a + 1 ≤ m), if_pos ham]
        obtain ⟨b, rfl⟩ : ∃ b, a = b + 1 := ⟨a - 1, by omega⟩
        have hpow : (2 : ℤ) ^ (b + 1 + 1 - 1) = 2 ^ (b + 1 - 1) * 2 := by
          have h1 : b + 1 + 1 - 1 = (b + 1 - 1) + 1 := by omega
          rw [h1, pow_succ]
        refine congrArg (FastPollResult.mk .unknown m) ?_
        rw [hpow]
        ring
      · have haem : a = m := by omega
        have hfuel0 : fuel = 0 := by omega
        rw [if_neg hlt, hfuel0, fastPollLoop, if_pos ham]
        subst haem
        simp

lemma fastPollLoop_first_success (res : ℕ → Option Status) (m : ℕ) (delay : ℤ)
    (k : ℕ) (s : Status) :
    ∀ (fuel a : ℕ) (w : ℤ), 1 ≤ a → a ≤ k → k ≤ m → a + fuel = m + 1 →
      (∀ j, a ≤ j → j < k → res j = Option.none) → res k = some s →
      fastPollLoop res m delay a w fuel
        = ⟨PollStatus.ofStatus s, k,
            w + delay * (2 ^ (k - 1) - 2 ^ (a - 1))⟩ := by
  intro fuel
  induction fuel with
  | zero =>
      intro a w ha hak hkm hfuel hfail hsucc
      omega
  | succ fuel ih =>
      intro a w ha hak hkm hfuel hfail hsucc
      by_cases hek : a = k
      · subst hek
        rw [fastPollLoop, hsucc]
        simp
      · have haltk : a < k := by omega
        have hresa : res a = Option.none := hfail a le_rfl haltk
        have haltm : a < m := by omega
        rw [fastPollLoop, hresa, if_pos haltm]
        rw [ih (a + 1) _ (by omega) (by omega) hkm (by omega)
          (fun j hj1 hj2 => hfail j (by omega) hj2) hsucc]
        obtain ⟨b, rfl⟩ : ∃ b, a = b + 1 := ⟨a - 1, by omega⟩
        have hpow : (2 : ℤ) ^ (b + 1 + 1 - 1) = 2 ^ (b + 1 - 1) * 2 := by
          have h1 : b + 1 + 1 - 1 = (b + 1 - 1) + 1 := by omega
          rw [h1, pow_succ]
        refine congrArg (FastPollResult.mk (PollStatus.ofStatus s) k) ?_
        rw [hpow]
        ring

/-- C7: with a valid token and `maxRetries ≥ 1`, `fastPoll` performs at most
`maxRetries` attempts, waits `baseDelay·2^(attempt-1)` between consecutive
attempts, returns the first successful status after a total wait of
`baseDelay·(2^(k-1) - 1)` when attempt `k` is the first success, and returns
unknown after waiting `baseDelay·(2^(maxRetries-1) - 1)` when every attempt
fails — in particular 1000 + 2000 = 3000 ms for `maxRetries = 3`,
`baseDelay = 1000`. -/
theorem fast_poll_retry_backoff (tokenExp nowMs delay : ℤ)
    (res : ℕ → Option Status) (m k : ℕ) (s : Status)
    (htok : ¬ tokenExp < nowMs) (hm : 1 ≤ m) (hk1 : 1 ≤ k) (hkm : k ≤ m)
    (hbefore : ∀ j, 1 ≤ j → j < k → res j = Option.none) :
    (fastPoll (some ⟨tokenExp⟩) nowMs res m delay).attemptsMade ≤ m
    ∧ (res k = some s →
        fastPoll (some ⟨tokenExp⟩) nowMs res m delay
          = ⟨PollStatus.ofStatus s, k, delay * (2 ^ (k - 1) - 1)⟩)
    ∧ ((∀ j, 1 ≤ j → j ≤ m → res j = Option.none) →
        fastPoll (some ⟨tokenExp⟩) nowMs res m delay
          = ⟨.unknown, m, delay * (2 ^ (m - 1) - 1)⟩)
    ∧ fastPoll (some ⟨0⟩) 0 (fun _ => Option.none) 3 1000
        = ⟨.unknown, 3, 3000⟩ := by
  have hfp : fastPoll (some ⟨tokenExp⟩) nowMs res m delay
      = fastPollLoop res m delay 1 0 m := by
    simp [fastPoll, htok]
  refine ⟨?_, ?_, ?_, by decide⟩
  · rw [hfp]
    refine le_trans (fastPollLoop_attempts_le res m delay m 1 0) ?_
    omega
  · intro hsucc
    rw [hfp, fastPollLoop_first_success res m delay k s m 1 0 le_rfl hk1 hkm
      (by omega) hbefore hsucc]
    norm_num
  · intro hfail
    rw [hfp, fastPollLoop_all_fail res m delay m 1 0 le_rfl (by omega) hfail,
      if_pos hm]
    norm_num

/-- Witness for C7: three failing attempts at base delay 1000 ms wait
1000 + 2000 = 3000 ms in total before unknown is returned. -/
theorem fast_poll_retry_backoff_witness :
    fastPoll (some ⟨5⟩) 0 (fun _ => Option.none) 3 1000
      = ⟨.unknown, 3, 3000⟩ := by
  have h := fast_poll_retry_backoff 5 0 1000 (fun _ => Option.none) 3 1
    Status.up (by decide) (by decide) (by decide) (by decide)
    (fun j h1 h2 => absurd h2 (by omega))
  exact h.2.2.1 (fun j h1 h2 => rfl)

/-- C10: with no stored token, or an expired one, `fastPoll` returns unknown
immediately — zero attempts, zero wait — and in particular never reports the
credential failure as a down status. -/
theorem fast_poll_missing_token (tokenExp nowMs : ℤ)
    (res : ℕ → Option Status) (m : ℕ) (delay : ℤ) :
    fastPoll Option.none nowMs res m delay = ⟨.unknown, 0, 0⟩
    ∧ (tokenExp < nowMs →
        fastPoll (some ⟨tokenExp⟩) nowMs res m delay = ⟨.unknown, 0, 0⟩)
    ∧ (fastPoll Option.none nowMs res m delay).status ≠ PollStatus.down
    ∧ (tokenExp < nowMs →
        (fastPoll (some ⟨tokenExp⟩) nowMs res m delay).status
          ≠ PollStatus.down) := by
  refine ⟨rfl, ?_, by simp [fastPoll], ?_⟩
  · intro h
    simp [fastPoll, h]
  · intro h
    simp [fastPoll, h]

/-- Witness for C10: an expired token (expiry 0, now 1) short-circuits to
unknown even though every attempt would have reported down. -/
theorem fast_poll_missing_token_witness :
    fastPoll (some ⟨0⟩) 1 (fun _ => some Status.down) 3 7
      = ⟨.unknown, 0, 0⟩ :=
  (fast_poll_missing_token 0 1 (fun _ => some Status.down) 3 7).2.1
    (by decide)

/-- First-match association-list lookup, the `Map.get` of the userId-keyed
`pollingIntervals` map. -/
def mapLookup (u : ℕ) : List (ℕ × ℕ) → Option ℕ
  | [] => Option.none
  | p :: rest => if p.1 = u then some p.2 else mapLookup u rest

/-- Module-level timer bookkeeping of the polling scheduler: the live
`setInterval` handles tagged with their owning account, the
`pollingIntervals` map keyed by userId, and a fresh-handle counter. -/
structure SchedulerState where
  activeTimers : List (ℕ × ℕ)
  pollingIntervals : List (ℕ × ℕ)
  nextHandle : ℕ
deriving DecidableEq, Repr

/-- Process start: no timers, empty map. -/
def initialScheduler : SchedulerState := ⟨[], [], 0⟩

/-- `stopPolling`: look the account up in the map; when present, clear that
interval handle and delete the map entry. -/
def stopPolling (s : SchedulerState) (userId : ℕ) : SchedulerState :=
  match mapLookup userId s.pollingIntervals with
  | Option.none => s
  | some h =>
      ⟨s.activeTimers.filter (fun p => decide (p.2 ≠ h)),
       s.pollingIntervals.filter (fun p => decide (p.1 ≠ userId)),
       s.nextHandle⟩

/-- `startPolling`: always stop existing polling for the account first; then,
when the account's config is enabled, install a fresh interval timer and
record its handle in the map. -/
def startPolling (s : SchedulerState) (userId : ℕ) (enabled : Bool) :
    SchedulerState :=
  let s' := stopPolling s userId
  if enabled then
    ⟨s'.activeTimers ++ [(userId, s'.nextHandle)],
     (userId, s'.nextHandle) :: s'.pollingIntervals,
     s'.nextHandle + 1⟩
  else s'

/-- A call into the scheduler's public lifecycle surface. -/
inductive SchedulerOp where
  | start (userId : ℕ) (enabled : Bool)
  | stop (userId : ℕ)
deriving DecidableEq, Repr

/-- Run a sequence of scheduler calls. -/
def runScheduler : SchedulerState → List SchedulerOp → SchedulerState
  | s, [] => s
  | s, .start u e :: rest => runScheduler (startPolling s u e) rest
  | s, .stop u :: rest => runScheduler (stopPolling s u) rest

/-- The live timer loops owned by one account. -/
def timersOf (s : SchedulerState) (u : ℕ) : List (ℕ × ℕ) :=
  s.activeTimers.filter (fun p => decide (p.1 = u))

/-- Scheduler invariant: handles are bounded by the fresh counter, map
values are pairwise distinct, and each account's live timers are exactly the
single handle its map entry records (none when absent). -/
def SchedulerInv (s : SchedulerState) : Prop :=
  (∀ p ∈ s.activeTimers, p.2 < s.nextHandle) ∧
  (∀ p ∈ s.pollingIntervals, p.2 < s.nextHandle) ∧
  (s.pollingIntervals.map Prod.snd).Nodup ∧
  (∀ u, timersOf s u
    = ((mapLookup u s.pollingIntervals).map (fun h => (u, h))).toList)

lemma mapLookup_mem {u h : ℕ} : ∀ {l : List (ℕ × ℕ)},
    mapLookup u l = some h → (u, h) ∈ l := by
  intro l
  induction l with
  | nil => intro hl; simp [mapLookup] at hl
  | cons p rest ih =>
      intro hl
      rw [mapLookup] at hl
      by_cases hp : p.1 = u
      · rw [if_pos hp] at hl
        have : p = (u, h) := by
          obtain ⟨p1, p2⟩ := p
          simp only at hp
          simp only [Option.some.injEq] at hl
          simp [hp, hl]
        rw [← this]
        exact List.mem_cons_self p rest
      · rw [if_neg hp] at hl
        exact List.mem_cons_of_mem p (ih hl)

lemma mapLookup_filter_self (u : ℕ) (l : List (ℕ × ℕ)) :
    mapLookup u (l.filter (fun p => decide (p.1 ≠ u))) = Option.none := by
  induction l with
  | nil => rfl
  | cons p rest ih =>
      simp only [List.filter_cons]
      by_cases hp : p.1 = u
      · rw [if_neg (by simp [hp])]
        exact ih
      · rw [if_pos (by simp [hp])]
        rw [mapLookup, if_neg hp]
        exact ih

lemma mapLookup_filter_ne (u v : ℕ) (l : List (ℕ × ℕ)) (huv : v ≠ u) :
    mapLookup v (l.filter (fun p => decide (p.1 ≠ u))) = mapLookup v l := by
  induction l with
  | nil => rfl
  | cons p rest ih =>
      simp only [List.filter_cons]
      by_cases hp : p.1 = u
      · have hpv : ¬ p.1 = v := by rw [hp]; exact fun hc => huv hc.symm
        rw [if_neg (by simp [hp])]
        rw [ih, mapLookup, if_neg hpv]
      · rw [if_pos (by simp [hp])]
        rw [mapLookup, mapLookup]
        by_cases hpv : p.1 = v
        · rw [if_pos hpv, if_pos hpv]
        · rw [if_neg hpv, if_neg hpv]
          exact ih

lemma timersOf_filter_handle (s : SchedulerState) (u : ℕ) (h : ℕ) :
    (s.activeTimers.filter (fun p => decide (p.2 ≠ h))).filter
        (fun p => decide (p.1 = u))
      = (timersOf s u).filter (fun p => decide (p.2 ≠ h)) := by
  rw [timersOf, List.filter_filter, List.filter_filter]
  congr 1
  funext p
  rw [Bool.and_comm]

lemma schedulerInv_stop (s : SchedulerState) (u : ℕ)
    (hinv : SchedulerInv s) : SchedulerInv (stopPolling s u) := by
  obtain ⟨h1, h2, h3, h4⟩ := hinv
  rw [stopPolling]
  cases hlk : mapLookup u s.pollingIntervals with
  | none => exact ⟨h1, h2, h3, h4⟩
  | some h =>
      refine ⟨?_, ?_, ?_, ?_⟩
      · intro p hp
        exact h1 p (List.mem_of_mem_filter hp)
      · intro p hp
        exact h2 p (List.mem_of_mem_filter hp)
      · exact List.Nodup.sublist
          (List.Sublist.map Prod.snd (List.filter_sublist _)) h3
      · intro v
        show (s.activeTimers.filter (fun p => decide (p.2 ≠ h))).filter
            (fun p => decide (p.1 = v)) = _
        rw [timersOf_filter_handle]
        by_cases hv : v = u
        · subst hv
          rw [h4 v, hlk, mapLookup_filter_self]
          simp
        · rw [h4 v, mapLookup_filter_ne u v _ hv]
          cases hlkv : mapLookup v s.pollingIntervals with
          | none => simp
          | some h' =>
              have hne : h' ≠ h := by
                intro hc
                have hmem1 := mapLookup_mem hlkv
                have hmem2 := mapLookup_mem hlk
                have := List.inj_on_of_nodup_map h3 hmem1 hmem2
                  (by simp [hc])
                simp at this
                exact hv this.1
              simp [hne]

lemma schedulerInv_start (s : SchedulerState) (u : ℕ) (e : Bool)
    (hinv : SchedulerInv s) : SchedulerInv (startPolling s u e) := by
  have hinv' := schedulerInv_stop s u hinv
  obtain ⟨h1, h2, h3, h4⟩ := hinv'
  have hlk : mapLookup u (stopPolling s u).pollingIntervals = Option.none := by
    rw [stopPolling]
    cases hlk0 : mapLookup u s.pollingIntervals with
    | none => exact hlk0
    | some h => exact mapLookup_filter_self u s.pollingIntervals
  rw [startPolling]
  cases e with
  | false => exact ⟨h1, h2, h3, h4⟩
  | true =>
      simp only [if_true]
      refine ⟨?_, ?_, ?_, ?_⟩
      · intro p hp
        rw [List.mem_append] at hp
        rcases hp with hp | hp
        · exact lt_trans (h1 p hp) (Nat.lt_succ_self _)
        · simp only [List.mem_singleton] at hp
          subst hp
          exact Nat.lt_succ_self _
      · intro p hp
        rw [List.mem_cons] at hp
        rcases hp with hp | hp
        · subst hp
          exact Nat.lt_succ_self _
        · exact lt_trans (h2 p hp) (Nat.lt_succ_self _)
      · rw [List.map_cons]
        refine List.Nodup.cons ?_ h3
        intro hc
        rw [List.mem_map] at hc
        obtain ⟨p, hp, hps⟩ := hc
        exact absurd (hps ▸ h2 p hp) (lt_irrefl _)
      · intro v
        show ((stopPolling s u).activeTimers
            ++ [(u, (stopPolling s u).nextHandle)]).filter
            (fun p => decide (p.1 = v))
          = ((mapLookup v ((u, (stopPolling s u).nextHandle)
              :: (stopPolling s u).pollingIntervals)).map
              (fun h => (v, h))).toList
        have hfv : (stopPolling s u).activeTimers.filter
            (fun p => decide (p.1 = v)) = timersOf (stopPolling s u) v := rfl
        rw [List.filter_append, hfv]
        by_cases hv : v = u
        · have hempty : timersOf (stopPolling s u) v = [] := by
            rw [h4 v, hv, hlk]
            rfl
          rw [hempty, mapLookup, if_pos hv.symm]
          simp [hv]
        · have hvu : ¬ (u = v) := fun hc => hv hc.symm
          rw [h4 v, mapLookup, if_neg hvu]
          simp [hvu]

lemma schedulerInv_run (ops : List SchedulerOp) :
    ∀ s : SchedulerState, SchedulerInv s → SchedulerInv (runScheduler s ops) := by
  induction ops with
  | nil => intro s hs; exact hs
  | cons op rest ih =>
      intro s hs
      cases op with
      | start u e => exact ih _ (schedulerInv_start s u e hs)
      | stop u => exact ih _ (schedulerInv_stop s u hs)

/-- C9: the timer map is keyed by userId and `startPolling` always cancels
the account's existing timer before installing a fresh one, so after any
sequence of start/stop calls from process start each account owns at most
one live polling timer loop. -/
theorem polling_single_timer_per_account (ops : List SchedulerOp) (u : ℕ) :
    (timersOf (runScheduler initialScheduler ops) u).length ≤ 1 := by
  have hinit : SchedulerInv initialScheduler := by
    refine ⟨?_, ?_, ?_, ?_⟩
    · intro p hp; simp [initialScheduler] at hp
    · intro p hp; simp [initialScheduler] at hp
    · simp [initialScheduler]
    · intro v; rfl
  have hinv := schedulerInv_run ops initialScheduler hinit
  rw [hinv.2.2.2 u]
  cases mapLookup u (runScheduler initialScheduler ops).pollingIntervals with
  | none => simp
  | some h => simp

end Monitor
